import Mathlib

/-!
Verification development for the gift-card-codes backend.

The repository is a small Express/Cloudant service dispensing single-use
redemption codes.  We shallowly embed the core logic of its handlers:

* `POST /get-code`        — the allocation path (`getCode`, `allocAttempt`);
* `POST /admin/add-codes` — bulk add with case-insensitive dedupe (`addCodes`);
* `POST /admin/reset-codes` — bulk reset (`resetCodes`);
* `GET  /admin/transactions` — the derived transaction ledger
  (`listTransactions`).

Documents live in a versioned store (Cloudant MVCC): a `put` of a document
carrying revision `r` succeeds only if `r` is still the current revision.
Concurrency is modelled by an explicit two-process interleaving semantics
(`run2`) whose only atomic events are the store `get` and `put`.

Machine integers do not overflow in any of the embedded code paths; JS
numbers are modelled as `Int`/`Nat`, timestamps as `Nat`.
-/

namespace GiftCodes

/-- One redemption code inside a catalog document (`codesDoc.codes[i]`).
`usedAt` timestamps are modelled as natural numbers. -/
structure CodeRecord where
  code : String
  used : Bool
  usedBy : Option String
  usedAt : Option Nat
  txnId : Option String
deriving DecidableEq

/-- A catalog document body: the ordered `codes` array. -/
abbrev Doc := List CodeRecord

/-- The versioned store's state for one document: body plus current
revision number (Cloudant `_rev`; modelled as a counter). -/
structure Store where
  doc : Doc
  rev : Nat
deriving DecidableEq

/-- Result of the `/get-code` handler, as observed by the client. -/
inductive HResult where
  /-- 401: no (or empty) session email. -/
  | unauthorized : HResult
  /-- 400 "Service required". -/
  | serviceRequired : HResult
  /-- 400 "No ... codes left". -/
  | outOfStock : HResult
  /-- 400 "Only n codes available". -/
  | insufficientStock (available : Nat) : HResult
  /-- 200 with the allocated codes. -/
  | success (codes : List String) (txnId : String) (count : Nat) (total : Nat) : HResult
  /-- 500 "Unknown error" (the catch-all, also hit on a put conflict). -/
  | serverError : HResult
deriving DecidableEq

/-- `parseInt(s, 10)`: skip leading whitespace, optional sign, then a
maximal run of decimal digits; `none` models `NaN`. -/
def jsParseInt (s : String) : Option Int :=
  let cs := s.toList.dropWhile (fun c => c.isWhitespace)
  let digitsOf : List Char → Option Nat := fun l =>
    let ds := l.takeWhile (fun c => c.isDigit)
    if ds.isEmpty then none
    else some (ds.foldl (fun acc c => acc * 10 + (c.toNat - 48)) 0)
  match cs with
  | '-' :: rest => (digitsOf rest).map (fun n => -(n : Int))
  | '+' :: rest => (digitsOf rest).map (fun n => (n : Int))
  | rest => (digitsOf rest).map (fun n => (n : Int))

/-- `const qty = parseInt(quantity, 10) || 1`: an absent field, `NaN`, or
`0` all coerce to `1` (`none` models an absent `quantity` field). -/
def jsQty (quantity : Option String) : Int :=
  match quantity with
  | none => 1
  | some s =>
    match jsParseInt s with
    | none => 1
    | some n => if n = 0 then 1 else n

/-- The end index of `arr.slice(0, e)` for an array of length `len`:
negative `e` counts from the end (clamped at 0), otherwise clamped at
`len`. -/
def jsSliceEnd (e : Int) (len : Nat) : Nat :=
  if e < 0 then ((len : Int) + e).toNat else min e.toNat len

/-- `service === "Uber" ? "codes-uber" : "codes-doordash"` — any service
other than `"Uber"` falls through to the doordash document. -/
def resolveDocId (service : String) : String :=
  if service = "Uber" then "codes-uber" else "codes-doordash"

/-- Unit price per code: `selected.length * 40` in the handler. -/
def UNIT_PRICE : Nat := 40

/-- One in-flight allocation call: the session email, the coerced
quantity, the generated `uuidv4()` transaction id, and the time used for
`new Date().toISOString()`. -/
structure AllocCall where
  email : String
  qty : Int
  txnId : String
  now : Nat
deriving DecidableEq

/-- Mark the first `q` unused records of the document as used by this
call — the in-place `selected.forEach(c => {...})` mutation, where
`selected = unusedCodes.slice(0, q)` aliases records of the document. -/
def markCodes (email : String) (now : Nat) (txn : String) : Nat → Doc → Doc
  | _, [] => []
  | 0, d => d
  | Nat.succ q, c :: rest =>
    if c.used then c :: markCodes email now txn (q + 1) rest
    else { c with used := true, usedBy := some email,
                  usedAt := some now, txnId := some txn }
         :: markCodes email now txn q rest

/-- What one pass of the handler's body does between the store `get` and
the response: either a failure without any write, or a write of a new
document followed (on put success) by a success response. -/
inductive StepOutcome where
  | fail (r : HResult) : StepOutcome
  | write (newDoc : Doc) (r : HResult) : StepOutcome
deriving DecidableEq

/-- The allocation logic of `POST /get-code` after the document has been
read: filter unused, the two stock guards, `slice(0, qty)`, mark the
selected records, and build the JSON response. -/
def allocAttempt (call : AllocCall) (d : Doc) : StepOutcome :=
  let unusedCodes := d.filter (fun c => !c.used)
  if unusedCodes.length = 0 then .fail .outOfStock
  else if (unusedCodes.length : Int) < call.qty then
    .fail (.insufficientStock unusedCodes.length)
  else
    let k := jsSliceEnd call.qty unusedCodes.length
    let selected := (unusedCodes.take k).map (fun c => c.code)
    .write (markCodes call.email call.now call.txnId k d)
      (.success selected call.txnId selected.length (selected.length * UNIT_PRICE))

/-- A store interaction recorded by the handler (used to state that
validation failures never touch the store). -/
inductive StoreEvent where
  | get (docId : String) : StoreEvent
  | put (docId : String) (d : Doc) : StoreEvent
deriving DecidableEq

/-- The `POST /get-code` handler, sequential (uncontended) semantics:
given the session email, request body fields, the generated transaction
id and clock, and the store contents, it returns the response together
with the list of store operations it performed.  A missing document makes
`getDocument` throw, landing in the catch-all. -/
def getCode (sessionEmail service quantity : Option String)
    (txnId : String) (now : Nat) (store : String → Option Doc) :
    HResult × List StoreEvent :=
  match sessionEmail with
  | none => (.unauthorized, [])
  | some email =>
    if email = "" then (.unauthorized, [])
    else
      match service with
      | none => (.serviceRequired, [])
      | some svc =>
        if svc = "" then (.serviceRequired, [])
        else
          let qty := jsQty quantity
          let docId := resolveDocId svc
          match store docId with
          | none => (.serverError, [.get docId])
          | some d =>
            match allocAttempt ⟨email, qty, txnId, now⟩ d with
            | .fail r => (r, [.get docId])
            | .write nd r => (r, [.get docId, .put docId nd])

/-- Control state of one in-flight `/get-code` request, between its store
operations: not yet read, read (holding the snapshot and its revision), or
responded. -/
inductive ProcState where
  | start : ProcState
  | got (d : Doc) (r : Nat) : ProcState
  | done (res : HResult) : ProcState
deriving DecidableEq

/-- One request: its call parameters plus its control state. -/
structure AllocProc where
  call : AllocCall
  st : ProcState
deriving DecidableEq

/-- One atomic step of a request against the shared store.  `get` snapshots
the document and revision; the subsequent step runs the in-memory logic and
attempts the `put`, which succeeds only if the revision is unchanged
(Cloudant MVCC) — a conflicting put throws, landing in the handler's
catch-all (`serverError`).  A responded request never acts again. -/
def stepProc (s : Store) (p : AllocProc) : Store × AllocProc :=
  match p.st with
  | .start => (s, { p with st := .got s.doc s.rev })
  | .got d r =>
    match allocAttempt p.call d with
    | .fail res => (s, { p with st := .done res })
    | .write nd res =>
      if r = s.rev then ({ doc := nd, rev := s.rev + 1 }, { p with st := .done res })
      else (s, { p with st := .done .serverError })
  | .done _ => (s, p)

/-- Scheduler step for two concurrent requests: `false` steps the first
process, `true` the second. -/
def step2 (side : Bool) : Store × AllocProc × AllocProc → Store × AllocProc × AllocProc
  | (s, p, q) =>
    if side then
      let sq := stepProc s q
      (sq.1, p, sq.2)
    else
      let sp := stepProc s p
      (sp.1, sp.2, q)

/-- Run an arbitrary interleaving (list of scheduler choices) of two
concurrent requests from a configuration. -/
def run2 : List Bool → Store × AllocProc × AllocProc → Store × AllocProc × AllocProc
  | [], c => c
  | b :: sched, c => run2 sched (step2 b c)

/-- The codes contained in a successful response, if the process has
responded successfully. -/
def succCodes : ProcState → Option (List String)
  | .done (.success cs _ _ _) => some cs
  | _ => none

/-- The code strings of the used records of a document. -/
def usedCodes (d : Doc) : List String :=
  (d.filter (fun c => c.used)).map (fun c => c.code)

/-- The code strings of the unused records of a document. -/
def unusedCodes (d : Doc) : List String :=
  (d.filter (fun c => !c.used)).map (fun c => c.code)

/-- The fresh record pushed by `/admin/add-codes`:
`{ code, used: false }`. -/
def freshRecord (code : String) : CodeRecord :=
  { code := code, used := false, usedBy := none, usedAt := none, txnId := none }

/-- `code.toLowerCase()`, modelled per character (the codes are ASCII;
`Char.toLower` lowercases exactly the basic latin letters). -/
def toLowerCase (s : String) : String :=
  ⟨s.data.map Char.toLower⟩

/-- The `codes.forEach` loop of `POST /admin/add-codes`: `seen` is the
mutable `Set` of lowercased codes (pre-seeded with the existing ones);
returns the records appended to the document, the `added` list and the
`skipped` list, in push order. -/
def addLoop (seen : List String) : List String → List CodeRecord × List String × List String
  | [] => ([], [], [])
  | code :: rest =>
    let normalized := toLowerCase code
    if normalized ∈ seen then
      let t := addLoop seen rest
      (t.1, t.2.1, code :: t.2.2)
    else
      let t := addLoop (normalized :: seen) rest
      (freshRecord code :: t.1, code :: t.2.1, t.2.2)

/-- Core of `POST /admin/add-codes` on one document: dedupe `rawCodes`
case-insensitively against the existing codes and against codes added
earlier in the same call, append the fresh records, and report
`(added, skipped)`. -/
def addCodes (d : Doc) (rawCodes : List String) : Doc × List String × List String :=
  let t := addLoop (d.map (fun c => toLowerCase c.code)) rawCodes
  (d ++ t.1, t.2.1, t.2.2)

/-- The per-record mutation of `POST /admin/reset-codes`:
`c.used = false; delete c.usedBy; delete c.usedAt; delete c.txnId`. -/
def resetRecord (c : CodeRecord) : CodeRecord :=
  { c with used := false, usedBy := none, usedAt := none, txnId := none }

/-- Core of `POST /admin/reset-codes` on one document: reset every
record. -/
def resetCodes (d : Doc) : Doc :=
  d.map resetRecord

/-- One summary row of `GET /admin/transactions`
(`{ txnId, date, email, qty }`). -/
structure TxnRow where
  txnId : String
  date : Option Nat
  email : Option String
  qty : Nat
deriving DecidableEq

/-- JS truthiness of the optional `txnId` string (`c.used && c.txnId`):
an absent or empty string is falsy. -/
def txnTruthy (o : Option String) : Bool :=
  match o with
  | none => false
  | some s => !(s = "")

/-- Insert one used record into the aggregation map.  JS object keys
(uuid strings) enumerate in insertion order, so the map is an ordered
association list: a new `txnId` appends a row with `qty = 0` then
increments; an existing one increments in place. -/
def addToMap (rows : List TxnRow) (c : CodeRecord) : List TxnRow :=
  let t := c.txnId.getD ""
  if rows.any (fun r => r.txnId = t) then
    rows.map (fun r => if r.txnId = t then { r with qty := r.qty + 1 } else r)
  else
    rows ++ [{ txnId := t, date := c.usedAt, email := c.usedBy, qty := 1 }]

/-- `Object.values(txnMap)`: rows in first-occurrence order of the used
records' transaction ids. -/
def groupRows (d : Doc) : List TxnRow :=
  (d.filter (fun c => c.used && txnTruthy c.txnId)).foldl addToMap []

/-- The numeric sort key of a row: `new Date(a.date)` as milliseconds. -/
def rowKey (r : TxnRow) : Nat :=
  r.date.getD 0

/-- Stable insertion of a row into a list sorted by descending date:
the inserted row (earlier in the original order) goes before every row of
equal key, matching the stable `Array.prototype.sort` with comparator
`(a, b) => new Date(b.date) - new Date(a.date)`. -/
def insertDesc (x : TxnRow) : List TxnRow → List TxnRow
  | [] => [x]
  | y :: ys => if rowKey x < rowKey y then y :: insertDesc x ys else x :: y :: ys

/-- Stable sort by descending date. -/
def sortDesc : List TxnRow → List TxnRow
  | [] => []
  | x :: xs => insertDesc x (sortDesc xs)

/-- Core of `GET /admin/transactions`: keep used records with a truthy
`txnId`, aggregate by `txnId` in first-occurrence order, and stable-sort
the rows by descending date. -/
def listTransactions (d : Doc) : List TxnRow :=
  sortDesc (groupRows d)

/-- The per-record half of the spec's CodeRecord invariant:
`used == false` ⇒ `usedBy`, `usedAt`, `txnId` all absent; `used == true`
⇒ all three present. -/
def recordOk (c : CodeRecord) : Prop :=
  (c.used = false → c.usedBy = none ∧ c.usedAt = none ∧ c.txnId = none) ∧
  (c.used = true → c.usedBy.isSome ∧ c.usedAt.isSome ∧ c.txnId.isSome)

/-- A document satisfying the per-record invariant everywhere. -/
def docOk (d : Doc) : Prop :=
  ∀ c ∈ d, recordOk c

/-- The record mutation applied to each selected record of a successful
allocation. -/
def markRec (e : String) (n : Nat) (t : String) (c : CodeRecord) : CodeRecord :=
  { c with used := true, usedBy := some e, usedAt := some n, txnId := some t }

/-- Per-process soundness against the current store state: a held
snapshot whose revision is still current equals the store's document, and
the codes of an already successful response are used in the store's
document. -/
def ProcOk (s : Store) (p : AllocProc) : Prop :=
  (∀ d r, p.st = .got d r → r ≤ s.rev ∧ (r = s.rev → d = s.doc)) ∧
  (∀ cs, succCodes p.st = some cs → ∀ x ∈ cs, x ∈ usedCodes s.doc)

/-- The codes of two successful responses never share a string. -/
def Disj2 (p q : AllocProc) : Prop :=
  ∀ ca cb, succCodes p.st = some ca → succCodes q.st = some cb → ∀ x ∈ ca, x ∉ cb

/-- The execution invariant of the two-process interleaving: the store's
code strings are those of the initial document (allocation never adds or
removes records), both processes are sound, and successful responses are
mutually disjoint. -/
def Inv (d0 : Doc) (c : Store × AllocProc × AllocProc) : Prop :=
  c.1.doc.map (fun r => r.code) = d0.map (fun r => r.code) ∧
  ProcOk c.1 c.2.1 ∧ ProcOk c.1 c.2.2 ∧ Disj2 c.2.1 c.2.2 ∧ Disj2 c.2.2 c.2.1

/-! ## Helper lemmas about the allocation mutation -/

lemma markCodes_zero (e : String) (n : Nat) (t : String) (d : Doc) :
    markCodes e n t 0 d = d := by
  cases d <;> rfl

lemma markCodes_map_code (e : String) (n : Nat) (t : String) (q : Nat) (d : Doc) :
    (markCodes e n t q d).map (fun c => c.code) = d.map (fun c => c.code) := by
  induction d generalizing q with
  | nil => cases q <;> simp [markCodes]
  | cons c rest ih =>
    cases q with
    | zero => simp [markCodes]
    | succ q =>
      by_cases hc : c.used
      · simp [markCodes, hc, ih]
      · simp [markCodes, hc, ih]

lemma length_markCodes (e : String) (n : Nat) (t : String) (q : Nat) (d : Doc) :
    (markCodes e n t q d).length = d.length := by
  have h := congrArg List.length (markCodes_map_code e n t q d)
  simpa using h

lemma mem_usedCodes_markCodes (e : String) (n : Nat) (t : String) (q : Nat) (d : Doc)
    (x : String) (hx : x ∈ usedCodes d) : x ∈ usedCodes (markCodes e n t q d) := by
  induction d generalizing q with
  | nil => simp [usedCodes] at hx
  | cons c rest ih =>
    cases q with
    | zero => simpa [markCodes_zero] using hx
    | succ q =>
      by_cases hc : c.used
      · simp only [usedCodes, List.filter_cons, hc, if_pos, List.map_cons] at hx ⊢
        simp only [markCodes, hc, if_pos, List.filter_cons, List.map_cons]
        simp only [List.mem_cons] at hx ⊢
        rcases hx with hx | hx
        · exact Or.inl hx
        · exact Or.inr (by simpa [usedCodes] using ih (q := q + 1) (by simpa [usedCodes] using hx))
      · simp only [usedCodes, List.filter_cons, hc, List.map_cons] at hx
        simp only [markCodes, hc, if_neg, Bool.false_eq_true, not_false_iff]
        simp only [usedCodes, List.filter_cons, List.map_cons]
        simp only [Bool.not_eq_true] at hc
        simp [hc] at hx
        have := ih (q := q) (by simpa [usedCodes] using hx)
        simp only [usedCodes] at this
        simp [this]

lemma mem_usedCodes_markCodes_of_selected (e : String) (n : Nat) (t : String) (q : Nat)
    (d : Doc) (x : String)
    (hx : x ∈ ((d.filter (fun c => !c.used)).take q).map (fun c => c.code)) :
    x ∈ usedCodes (markCodes e n t q d) := by
  induction d generalizing q with
  | nil => simp at hx
  | cons c rest ih =>
    cases q with
    | zero => simp at hx
    | succ q =>
      by_cases hc : c.used
      · simp only [List.filter_cons, hc] at hx
        simp only [markCodes, hc, if_pos]
        have := ih (q := q + 1) (by simpa using hx)
        simp only [usedCodes, List.filter_cons, hc, if_pos, List.map_cons] at this ⊢
        simp [this]
      · simp only [List.filter_cons, hc] at hx
        simp only [Bool.not_eq_true] at hc
        simp only [hc, Bool.not_false, if_pos, List.take_succ_cons, List.map_cons,
          List.mem_cons] at hx
        simp only [markCodes, hc, Bool.false_eq_true, if_neg, not_false_iff]
        simp only [usedCodes, List.filter_cons, List.map_cons, List.mem_cons]
        rcases hx with hx | hx
        · simp [hx]
        · have := ih (q := q) (by simpa using hx)
          simp only [usedCodes] at this
          simp [this]

lemma mem_map_code_of_mem_usedCodes (d : Doc) (x : String) (hx : x ∈ usedCodes d) :
    x ∈ d.map (fun c => c.code) := by
  simp only [usedCodes, List.mem_map] at hx
  obtain ⟨c, hc, rfl⟩ := hx
  exact List.mem_map_of_mem _ (List.mem_of_mem_filter hc)

lemma mem_map_code_of_mem_unusedCodes (d : Doc) (x : String) (hx : x ∈ unusedCodes d) :
    x ∈ d.map (fun c => c.code) := by
  simp only [unusedCodes, List.mem_map] at hx
  obtain ⟨c, hc, rfl⟩ := hx
  exact List.mem_map_of_mem _ (List.mem_of_mem_filter hc)

lemma not_mem_unusedCodes_of_mem_usedCodes (d : Doc)
    (hnd : (d.map (fun c => c.code)).Nodup) (x : String) (hx : x ∈ usedCodes d) :
    x ∉ unusedCodes d := by
  induction d with
  | nil => simp [unusedCodes]
  | cons c rest ih =>
    simp only [List.map_cons, List.nodup_cons] at hnd
    by_cases hc : c.used
    · simp only [usedCodes, List.filter_cons, hc, if_pos, List.map_cons, List.mem_cons] at hx
      simp only [unusedCodes, List.filter_cons, hc, Bool.not_true, Bool.false_eq_true,
        if_neg, not_false_iff]
      rcases hx with rfl | hx
      · intro hmem
        exact hnd.1 (mem_map_code_of_mem_unusedCodes rest _ hmem)
      · exact ih hnd.2 hx
    · simp only [Bool.not_eq_true] at hc
      simp only [usedCodes, List.filter_cons, hc, Bool.false_eq_true, if_neg,
        not_false_iff] at hx
      simp only [unusedCodes, List.filter_cons, hc, Bool.not_false, if_pos, List.map_cons,
        List.mem_cons]
      rintro (rfl | hmem)
      · exact hnd.1 (mem_map_code_of_mem_usedCodes rest _ hx)
      · exact absurd hmem (ih hnd.2 hx)

lemma recordOk_marked (e t : String) (n : Nat) (c : CodeRecord) :
    recordOk { c with used := true, usedBy := some e, usedAt := some n, txnId := some t } := by
  simp [recordOk]

lemma docOk_markCodes (e : String) (n : Nat) (t : String) (q : Nat) (d : Doc) :
    docOk d → docOk (markCodes e n t q d) := by
  induction d generalizing q with
  | nil => intro h; cases q <;> simpa [markCodes] using h
  | cons c rest ih =>
    intro h
    have hc0 : recordOk c := h c (by simp)
    have hrest : docOk rest := fun x hx => h x (List.mem_cons_of_mem _ hx)
    cases q with
    | zero => simpa [markCodes_zero] using h
    | succ q =>
      by_cases hc : c.used
      · simp only [markCodes, hc, if_pos]
        intro x hx
        rcases List.mem_cons.mp hx with rfl | hx
        · exact hc0
        · exact ih (q + 1) hrest x hx
      · simp only [markCodes, hc, Bool.false_eq_true, if_neg, not_false_iff]
        intro x hx
        rcases List.mem_cons.mp hx with rfl | hx
        · exact recordOk_marked e t n c
        · exact ih q hrest x hx

/-! ## Helper lemmas about the admin bulk-add loop -/

lemma addLoop_spec (raw : List String) : ∀ seen : List String,
    (addLoop seen raw).1 = (addLoop seen raw).2.1.map freshRecord ∧
    (addLoop seen raw).2.1.Sublist raw ∧
    (addLoop seen raw).2.2.Sublist raw ∧
    raw.Perm ((addLoop seen raw).2.1 ++ (addLoop seen raw).2.2) ∧
    ((addLoop seen raw).2.1.map toLowerCase).Nodup ∧
    (∀ c ∈ (addLoop seen raw).2.1, toLowerCase c ∉ seen) ∧
    (∀ c ∈ (addLoop seen raw).2.2,
      toLowerCase c ∈ seen ++ (addLoop seen raw).2.1.map toLowerCase) := by
  induction raw with
  | nil => intro seen; simp [addLoop]
  | cons code rest ih =>
    intro seen
    by_cases hm : toLowerCase code ∈ seen
    · obtain ⟨ha, hs1, hs2, hp, hnd, hnotin, hskip⟩ := ih seen
      simp only [addLoop, hm, if_pos]
      refine ⟨ha, hs1.cons _, hs2.cons₂ _, ?_, hnd, hnotin, ?_⟩
      · exact (hp.cons code).trans List.perm_middle.symm
      · intro c hc
        rcases List.mem_cons.mp hc with rfl | hc
        · exact List.mem_append_left _ hm
        · exact hskip c hc
    · obtain ⟨ha, hs1, hs2, hp, hnd, hnotin, hskip⟩ := ih (toLowerCase code :: seen)
      simp only [addLoop, hm, if_neg, not_false_iff]
      refine ⟨by simpa using ha, hs1.cons₂ _, hs2.cons _, ?_, ?_, ?_, ?_⟩
      · simpa using hp.cons code
      · simp only [List.map_cons, List.nodup_cons]
        exact ⟨fun hmem => by
          obtain ⟨c, hc, hlc⟩ := List.mem_map.mp hmem
          exact (hnotin c hc) (by simp [hlc]), hnd⟩
      · intro c hc
        rcases List.mem_cons.mp hc with rfl | hc
        · exact hm
        · exact fun hin => (hnotin c hc) (List.mem_cons_of_mem _ hin)
      · intro c hc
        have := hskip c hc
        simp only [List.mem_append, List.mem_cons, List.map_cons] at this ⊢
        tauto

/-- The success path of the handler: with a non-empty session email and
service, a coerced quantity `qn ≥ 1`, and at least `qn` unused records,
the handler returns the first `qn` unused codes and writes the marked
document. -/
lemma getCode_success (e svc : String) (he : e ≠ "") (hsvc : svc ≠ "")
    (q : Option String) (qn : Nat) (hq : jsQty q = (qn : Int)) (hq1 : 1 ≤ qn)
    (store : String → Option Doc) (d : Doc) (hd : store (resolveDocId svc) = some d)
    (hstock : qn ≤ (d.filter (fun c => !c.used)).length) (txn : String) (now : Nat) :
    getCode (some e) (some svc) q txn now store =
      (.success (((d.filter (fun c => !c.used)).take qn).map (fun c => c.code)) txn qn
        (qn * UNIT_PRICE),
       [.get (resolveDocId svc), .put (resolveDocId svc) (markCodes e now txn qn d)]) := by
  have hlen : ¬ (d.filter (fun c => !c.used)).length = 0 := by omega
  have hlt : ¬ ((d.filter (fun c => !c.used)).length : Int) < jsQty q := by
    rw [hq]
    exact not_lt.mpr (by exact_mod_cast hstock)
  have hk : jsSliceEnd (jsQty q) (d.filter (fun c => !c.used)).length = qn := by
    rw [hq]; unfold jsSliceEnd; split <;> omega
  have hsel : (((d.filter (fun c => !c.used)).take qn).map (fun c => c.code)).length = qn := by
    simp only [List.length_map, List.length_take]
    omega
  simp only [getCode, he, hsvc, if_neg, if_false, hd]
  simp only [allocAttempt, hlen, hlt, if_false, hk, hsel]

/-- Positional characterization of the allocation mutation: record `i`
is marked exactly when it is unused and fewer than `q` unused records
precede it (i.e. it is among the first `q` unused records); every other
record is unchanged. -/
lemma markCodes_getElem? (e : String) (n : Nat) (t : String) (q : Nat) (d : Doc)
    (i : Nat) :
    (markCodes e n t q d)[i]? =
      (d[i]?).map (fun c =>
        if c.used = false ∧ ((d.take i).filter (fun r => !r.used)).length < q
        then markRec e n t c else c) := by
  induction d generalizing q i with
  | nil => cases q <;> simp [markCodes]
  | cons c rest ih =>
    cases q with
    | zero =>
      rw [markCodes_zero]
      cases hg : (c :: rest)[i]? with
      | none => simp
      | some x => simp
    | succ q =>
      cases i with
      | zero =>
        by_cases hc : c.used
        · simp [markCodes, hc]
        · simp only [Bool.not_eq_true] at hc
          simp [markCodes, hc, markRec]
      | succ i =>
        by_cases hc : c.used
        · simp only [markCodes, hc, if_pos, List.getElem?_cons_succ, List.take_succ_cons,
            List.filter_cons, Bool.not_true, Bool.false_eq_true, if_neg, not_false_iff]
          rw [ih]
        · simp only [Bool.not_eq_true] at hc
          simp only [markCodes, hc, Bool.false_eq_true, if_neg, not_false_iff,
            List.getElem?_cons_succ, List.take_succ_cons, List.filter_cons, Bool.not_false,
            if_pos, List.length_cons]
          rw [ih]
          cases hg : rest[i]? with
          | none => simp
          | some x => simp [Nat.succ_lt_succ_iff]

/-! ## Invariant of the two-process interleaving -/

lemma mem_unusedCodes_of_selected (d : Doc) (k : Nat) (x : String)
    (hx : x ∈ ((d.filter (fun c => !c.used)).take k).map (fun c => c.code)) :
    x ∈ unusedCodes d := by
  simp only [List.mem_map] at hx
  obtain ⟨c, hc, rfl⟩ := hx
  exact List.mem_map_of_mem _ (List.mem_of_mem_take hc)

lemma stepProc_preserves (d0 : Doc) (hnd : (d0.map (fun r => r.code)).Nodup)
    (s : Store) (p o : AllocProc)
    (hmap : s.doc.map (fun r => r.code) = d0.map (fun r => r.code))
    (hp : ProcOk s p) (ho : ProcOk s o) (hpo : Disj2 p o) (hop : Disj2 o p) :
    (stepProc s p).1.doc.map (fun r => r.code) = d0.map (fun r => r.code) ∧
    ProcOk (stepProc s p).1 (stepProc s p).2 ∧
    ProcOk (stepProc s p).1 o ∧
    Disj2 (stepProc s p).2 o ∧
    Disj2 o (stepProc s p).2 := by
  cases hst : p.st with
  | start =>
    simp only [stepProc, hst]
    refine ⟨hmap, ⟨?_, ?_⟩, ho, ?_, ?_⟩
    · intro d r h
      cases h
      exact ⟨Nat.le_refl _, fun _ => rfl⟩
    · intro cs hcs
      simp [succCodes] at hcs
    · intro ca cb hca
      simp [succCodes] at hca
    · intro ca cb hca hcb
      simp [succCodes] at hcb
  | done res =>
    simp only [stepProc, hst]
    exact ⟨hmap, hp, ho, hpo, hop⟩
  | got d r =>
    obtain ⟨hle, himp⟩ := hp.1 d r hst
    by_cases h0 : (d.filter (fun c => !c.used)).length = 0
    · simp only [stepProc, hst, allocAttempt, h0, if_pos]
      refine ⟨hmap, ⟨?_, ?_⟩, ho, ?_, ?_⟩
      · intro d' r' h
        simp at h
      · intro cs hcs
        simp [succCodes] at hcs
      · intro ca cb hca
        simp [succCodes] at hca
      · intro ca cb hca hcb
        simp [succCodes] at hcb
    · by_cases h1 : ((d.filter (fun c => !c.used)).length : Int) < p.call.qty
      · simp only [stepProc, hst, allocAttempt, h0, h1, if_false, if_true, if_neg, if_pos,
          not_false_iff]
        refine ⟨hmap, ⟨?_, ?_⟩, ho, ?_, ?_⟩
        · intro d' r' h
          simp at h
        · intro cs hcs
          simp [succCodes] at hcs
        · intro ca cb hca
          simp [succCodes] at hca
        · intro ca cb hca hcb
          simp [succCodes] at hcb
      · by_cases hr : r = s.rev
        · have hds : d = s.doc := himp hr
          subst hds
          have hndS : (s.doc.map (fun r => r.code)).Nodup := by
            rw [hmap]
            exact hnd
          simp only [stepProc, hst, allocAttempt, h0, h1, if_false, if_neg, not_false_iff,
            if_pos, hr, if_true]
          refine ⟨?_, ⟨?_, ?_⟩, ⟨?_, ?_⟩, ?_, ?_⟩
          · rw [markCodes_map_code]
            exact hmap
          · intro d' r' h
            simp at h
          · intro cs hcs
            simp only [succCodes] at hcs
            rcases Option.some_inj.mp hcs with rfl
            intro x hx
            exact mem_usedCodes_markCodes_of_selected _ _ _ _ _ _ hx
          · intro d' r' h
            obtain ⟨hle', himp'⟩ := ho.1 d' r' h
            have hle2 : r' ≤ s.rev + 1 := by omega
            exact ⟨hle2, fun he => absurd (show r' = s.rev + 1 from he) (by omega)⟩
          · intro cs hcs x hx
            exact mem_usedCodes_markCodes _ _ _ _ _ _ (ho.2 cs hcs x hx)
          · intro ca cb hca hcb x hx
            simp only [succCodes] at hca
            rcases Option.some_inj.mp hca with rfl
            have hxu : x ∈ unusedCodes s.doc := mem_unusedCodes_of_selected _ _ _ hx
            intro hxcb
            have hxused : x ∈ usedCodes s.doc := ho.2 cb hcb x hxcb
            exact not_mem_unusedCodes_of_mem_usedCodes s.doc hndS x hxused hxu
          · intro ca cb hca hcb x hx
            simp only [succCodes] at hcb
            rcases Option.some_inj.mp hcb with rfl
            intro hxcb
            have hxu : x ∈ unusedCodes s.doc := mem_unusedCodes_of_selected _ _ _ hxcb
            have hxused : x ∈ usedCodes s.doc := ho.2 ca hca x hx
            exact not_mem_unusedCodes_of_mem_usedCodes s.doc hndS x hxused hxu
        · simp only [stepProc, hst, allocAttempt, h0, h1, if_false, if_neg, not_false_iff,
            hr]
          refine ⟨hmap, ⟨?_, ?_⟩, ho, ?_, ?_⟩
          · intro d' r' h
            simp at h
          · intro cs hcs
            simp [succCodes] at hcs
          · intro ca cb hca
            simp [succCodes] at hca
          · intro ca cb hca hcb
            simp [succCodes] at hcb

lemma step2_inv (d0 : Doc) (hnd : (d0.map (fun r => r.code)).Nodup) (b : Bool)
    (c : Store × AllocProc × AllocProc) (h : Inv d0 c) : Inv d0 (step2 b c) := by
  obtain ⟨s, p, o⟩ := c
  obtain ⟨hmap, hp, ho, hpo, hop⟩ := h
  cases b
  · have h' := stepProc_preserves d0 hnd s p o hmap hp ho hpo hop
    exact ⟨h'.1, h'.2.1, h'.2.2.1, h'.2.2.2.1, h'.2.2.2.2⟩
  · have h' := stepProc_preserves d0 hnd s o p hmap ho hp hop hpo
    exact ⟨h'.1, h'.2.2.1, h'.2.1, h'.2.2.2.2, h'.2.2.2.1⟩

lemma run2_inv (d0 : Doc) (hnd : (d0.map (fun r => r.code)).Nodup) (sched : List Bool) :
    ∀ c, Inv d0 c → Inv d0 (run2 sched c) := by
  induction sched with
  | nil => exact fun c h => h
  | cons b rest ih => exact fun c h => ih _ (step2_inv d0 hnd b c h)

lemma inv_init (d0 : Doc) (r0 : Nat) (cA cB : AllocCall) :
    Inv d0 ({ doc := d0, rev := r0 }, ⟨cA, .start⟩, ⟨cB, .start⟩) := by
  refine ⟨rfl, ⟨?_, ?_⟩, ⟨?_, ?_⟩, ?_, ?_⟩
  · intro d r h
    simp at h
  · intro cs hcs
    simp [succCodes] at hcs
  · intro d r h
    simp at h
  · intro cs hcs
    simp [succCodes] at hcs
  · intro ca cb hca
    simp [succCodes] at hca
  · intro ca cb hca hcb
    simp [succCodes] at hcb

/-! ## Helper lemmas about the transaction-ledger sort -/

lemma mem_insertDesc (x : TxnRow) (l : List TxnRow) (a : TxnRow) :
    a ∈ insertDesc x l ↔ a = x ∨ a ∈ l := by
  induction l with
  | nil => simp [insertDesc]
  | cons y ys ih =>
    by_cases hxy : rowKey x < rowKey y
    · simp only [insertDesc, if_pos hxy, List.mem_cons, ih]
      tauto
    · simp [insertDesc, hxy]

lemma pairwise_insertDesc (x : TxnRow) (l : List TxnRow)
    (h : l.Pairwise (fun a b => rowKey b ≤ rowKey a)) :
    (insertDesc x l).Pairwise (fun a b => rowKey b ≤ rowKey a) := by
  induction l with
  | nil => simp [insertDesc]
  | cons y ys ih =>
    rcases List.pairwise_cons.mp h with ⟨hy, hys⟩
    by_cases hxy : rowKey x < rowKey y
    · simp only [insertDesc, if_pos hxy]
      refine List.pairwise_cons.mpr ⟨?_, ih hys⟩
      intro a ha
      rcases (mem_insertDesc x ys a).mp ha with rfl | ha
      · omega
      · exact hy a ha
    · simp only [insertDesc, if_neg hxy]
      refine List.pairwise_cons.mpr ⟨?_, h⟩
      intro a ha
      rcases List.mem_cons.mp ha with rfl | ha
      · omega
      · have := hy a ha
        omega

lemma perm_insertDesc (x : TxnRow) (l : List TxnRow) : (insertDesc x l).Perm (x :: l) := by
  induction l with
  | nil => exact List.Perm.refl _
  | cons y ys ih =>
    by_cases hxy : rowKey x < rowKey y
    · simp only [insertDesc, if_pos hxy]
      exact (ih.cons y).trans (List.Perm.swap x y ys)
    · simp [insertDesc, hxy]

lemma filter_insertDesc (x : TxnRow) (l : List TxnRow) (k : Nat) :
    (insertDesc x l).filter (fun r => rowKey r == k) =
      (x :: l).filter (fun r => rowKey r == k) := by
  induction l with
  | nil => rfl
  | cons y ys ih =>
    by_cases hxy : rowKey x < rowKey y
    · simp only [insertDesc, if_pos hxy, List.filter_cons, ih]
      by_cases hxk : rowKey x = k
      · have hyk : ¬ rowKey y = k := by omega
        simp [hxk, hyk]
      · simp [hxk]
    · simp [insertDesc, hxy]

lemma sortDesc_pairwise (l : List TxnRow) :
    (sortDesc l).Pairwise (fun a b => rowKey b ≤ rowKey a) := by
  induction l with
  | nil => simp [sortDesc]
  | cons x xs ih => exact pairwise_insertDesc x (sortDesc xs) ih

lemma sortDesc_perm (l : List TxnRow) : (sortDesc l).Perm l := by
  induction l with
  | nil => exact List.Perm.refl _
  | cons x xs ih => exact (perm_insertDesc x (sortDesc xs)).trans (ih.cons x)

lemma sortDesc_filter (l : List TxnRow) (k : Nat) :
    (sortDesc l).filter (fun r => rowKey r == k) = l.filter (fun r => rowKey r == k) := by
  induction l with
  | nil => rfl
  | cons x xs ih =>
    simp only [sortDesc, filter_insertDesc, List.filter_cons, ih]

/-! ## Claim theorems -/

/-- C7: `ResetCodes` is idempotent — applying it twice to any catalog
document yields exactly the state after one application, namely every
record unused with `usedBy`, `usedAt` and `txnId` absent. -/
theorem resetCodes_idempotent (d : Doc) :
    resetCodes (resetCodes d) = resetCodes d ∧
    ∀ c ∈ resetCodes d,
      c.used = false ∧ c.usedBy = none ∧ c.usedAt = none ∧ c.txnId = none := by
  constructor
  · simp only [resetCodes, List.map_map]
    refine List.map_congr_left ?_
    intro c _
    rfl
  · intro c hc
    simp only [resetCodes, List.mem_map] at hc
    obtain ⟨a, _, rfl⟩ := hc
    simp [resetRecord]

/-- C8: every core operation preserves the per-record invariant: a
successful allocation write, the bulk-add result, and the reset result
all consist of records where `used = false` implies the three usage
fields are absent and `used = true` implies all three are present. -/
theorem coreOps_preserve_recordOk (d : Doc) (h : docOk d) :
    (∀ call nd r, allocAttempt call d = .write nd r → docOk nd) ∧
    (∀ raw, docOk (addCodes d raw).1) ∧
    docOk (resetCodes d) := by
  refine ⟨?_, ?_, ?_⟩
  · intro call nd r hw
    unfold allocAttempt at hw
    by_cases h0 : (d.filter (fun c => !c.used)).length = 0
    · simp [h0] at hw
    · by_cases h1 : ((d.filter (fun c => !c.used)).length : Int) < call.qty
      · simp [h0, h1] at hw
      · simp only [h0, h1, if_neg, if_false, not_false_iff] at hw
        obtain ⟨hnd, -⟩ := StepOutcome.write.inj hw
        exact hnd ▸ docOk_markCodes _ _ _ _ d h
  · intro raw
    have ha := (addLoop_spec raw (d.map (fun c => toLowerCase c.code))).1
    intro c hc
    simp only [addCodes] at hc
    rcases List.mem_append.mp hc with hc | hc
    · exact h c hc
    · rw [ha] at hc
      obtain ⟨s, -, rfl⟩ := List.mem_map.mp hc
      simp [recordOk, freshRecord]
  · intro c hc
    simp only [resetCodes, List.mem_map] at hc
    obtain ⟨a, -, rfl⟩ := hc
    simp [recordOk, resetRecord]

/-- Witness for C8: the invariant-preservation theorem applied to a
concrete one-record document. -/
theorem coreOps_preserve_recordOk_witness :
    docOk [freshRecord "Z"] ∧
    ((∀ call nd r, allocAttempt call [freshRecord "Z"] = .write nd r → docOk nd) ∧
     (∀ raw, docOk (addCodes [freshRecord "Z"] raw).1) ∧
     docOk (resetCodes [freshRecord "Z"])) :=
  have hd : docOk [freshRecord "Z"] := by
    intro c hc
    rcases List.mem_singleton.mp hc with rfl
    simp [recordOk, freshRecord]
  ⟨hd, coreOps_preserve_recordOk _ hd⟩

/-- C6: `AddCodes` iterates the raw codes in input order, appends a fresh
unused record for each code not already present under case-insensitive
comparison against both the pre-existing codes and the codes added
earlier in the same call (first occurrence wins), returns the `added`
and `skipped` lists partitioning the input, and on an empty catalog
`["A", "a", "B"]` yields `added = ["A", "B"]`, `skipped = ["a"]`. -/
theorem addCodes_dedupe (d : Doc) (raw : List String) :
    (addCodes d raw).1 = d ++ ((addCodes d raw).2.1).map freshRecord ∧
    (addCodes d raw).2.1.Sublist raw ∧
    (addCodes d raw).2.2.Sublist raw ∧
    raw.Perm ((addCodes d raw).2.1 ++ (addCodes d raw).2.2) ∧
    (((addCodes d raw).2.1).map toLowerCase).Nodup ∧
    (∀ c ∈ (addCodes d raw).2.1, toLowerCase c ∉ d.map (fun r => toLowerCase r.code)) ∧
    (∀ c ∈ (addCodes d raw).2.2,
      toLowerCase c ∈ d.map (fun r => toLowerCase r.code) ++ ((addCodes d raw).2.1).map toLowerCase) ∧
    addCodes [] ["A", "a", "B"] = ([freshRecord "A", freshRecord "B"], ["A", "B"], ["a"]) := by
  obtain ⟨ha, hs1, hs2, hp, hnd, hnotin, hskip⟩ :=
    addLoop_spec raw (d.map (fun c => toLowerCase c.code))
  simp only [addCodes]
  exact ⟨by rw [ha], hs1, hs2, hp, hnd, hnotin, hskip, by decide⟩

/-- C10: a `quantity` field that is absent, non-numeric, or parses to 0
is coerced to 1 by `parseInt(quantity, 10) || 1`, and such a request
proceeds to allocate exactly one code. -/
theorem qty_falsy_coerced_to_one (q : Option String)
    (hq : q = none ∨ (∃ s, q = some s ∧ jsParseInt s = none) ∨
          (∃ s, q = some s ∧ jsParseInt s = some 0))
    (e svc : String) (he : e ≠ "") (hsvc : svc ≠ "")
    (store : String → Option Doc) (d : Doc) (hd : store (resolveDocId svc) = some d)
    (hstock : 1 ≤ (d.filter (fun c => !c.used)).length) (txn : String) (now : Nat) :
    jsQty q = 1 ∧
    (getCode (some e) (some svc) q txn now store).1 =
      .success (((d.filter (fun c => !c.used)).take 1).map (fun c => c.code))
        txn 1 UNIT_PRICE := by
  have h1 : jsQty q = 1 := by
    rcases hq with rfl | ⟨s, rfl, hs⟩ | ⟨s, rfl, hs⟩
    · rfl
    · simp [jsQty, hs]
    · simp [jsQty, hs]
  refine ⟨h1, ?_⟩
  rw [getCode_success e svc he hsvc q 1 (by exact_mod_cast h1) le_rfl store d hd
    hstock txn now]
  simp

/-- Witness for C10: quantity `"0"` against a one-code catalog allocates
exactly that code. -/
theorem qty_falsy_coerced_to_one_witness :
    jsQty (some "0") = 1 ∧
    (getCode (some "x@example.com") (some "Uber") (some "0") "T" 3
      (fun i => if i = "codes-uber" then some [freshRecord "C1"] else none)).1 =
      .success ((([freshRecord "C1"].filter (fun c => !c.used)).take 1).map (fun c => c.code))
        "T" 1 UNIT_PRICE :=
  qty_falsy_coerced_to_one (some "0")
    (Or.inr (Or.inr ⟨"0", rfl, by decide⟩))
    "x@example.com" "Uber" (by decide) (by decide)
    (fun i => if i = "codes-uber" then some [freshRecord "C1"] else none)
    [freshRecord "C1"] (by decide) (by decide) "T" 3

/-- C5: with zero unused records the allocation fails out-of-stock; with
`0 < k < quantity` unused records it fails insufficient-stock reporting
`k`; in both cases the handler performs only the store `get`, so the
stored document is unchanged. -/
theorem allocate_stock_failures (e svc : String) (he : e ≠ "") (hsvc : svc ≠ "")
    (q : Option String) (store : String → Option Doc) (d : Doc)
    (hd : store (resolveDocId svc) = some d) (txn : String) (now : Nat) :
    ((d.filter (fun c => !c.used)).length = 0 →
      getCode (some e) (some svc) q txn now store =
        (.outOfStock, [.get (resolveDocId svc)])) ∧
    (∀ k : Nat, (d.filter (fun c => !c.used)).length = k → 0 < k →
      (k : Int) < jsQty q →
      getCode (some e) (some svc) q txn now store =
        (.insufficientStock k, [.get (resolveDocId svc)])) := by
  constructor
  · intro h0
    simp [getCode, he, hsvc, hd, allocAttempt, h0]
  · intro k hk hpos hlt
    subst hk
    have h0 : ¬ (d.filter (fun c => !c.used)).length = 0 := by omega
    simp [getCode, he, hsvc, hd, allocAttempt, h0, hlt]

/-- Witness for C5: a catalog with one unused code and quantity 2 fails
with `InsufficientStock(available = 1)` after only the `get`. -/
theorem allocate_stock_failures_witness :
    (([{ code := "C1", used := true, usedBy := some "u", usedAt := some 0,
         txnId := some "t0" }, freshRecord "C3"].filter (fun c => !c.used)).length = 1 ∧
    getCode (some "x@example.com") (some "Uber") (some "2") "T" 0
      (fun i => if i = "codes-uber"
        then some [{ code := "C1", used := true, usedBy := some "u", usedAt := some 0,
                     txnId := some "t0" }, freshRecord "C3"] else none) =
      (.insufficientStock 1, [.get (resolveDocId "Uber")])) :=
  ⟨by decide,
   (allocate_stock_failures "x@example.com" "Uber" (by decide) (by decide)
      (some "2")
      (fun i => if i = "codes-uber"
        then some [{ code := "C1", used := true, usedBy := some "u", usedAt := some 0,
                     txnId := some "t0" }, freshRecord "C3"] else none)
      [{ code := "C1", used := true, usedBy := some "u", usedAt := some 0,
         txnId := some "t0" }, freshRecord "C3"]
      (by decide) "T" 0).2 1 (by decide) (by decide) (by decide)⟩

/-- C2: a successful allocation of quantity `q` (coerced from the
request) by identity `e` returns exactly the code strings of the first
`q` unused records in order, the generated transaction id, count `q` and
total `q * UNIT_PRICE`; the written document marks exactly the first `q`
unused records with `used = true`, `usedBy = e`, `usedAt = now`,
`txnId = txn` and leaves every other record unchanged. -/
theorem allocate_success_spec (e svc : String) (he : e ≠ "") (hsvc : svc ≠ "")
    (q : Nat) (hq1 : 1 ≤ q) (qf : Option String) (hqf : jsQty qf = (q : Int))
    (store : String → Option Doc) (d : Doc) (hd : store (resolveDocId svc) = some d)
    (hstock : q ≤ (d.filter (fun c => !c.used)).length) (txn : String) (now : Nat) :
    getCode (some e) (some svc) qf txn now store =
      (.success (((d.filter (fun c => !c.used)).take q).map (fun c => c.code)) txn q
        (q * UNIT_PRICE),
       [.get (resolveDocId svc), .put (resolveDocId svc) (markCodes e now txn q d)]) ∧
    (∀ i : Nat, (markCodes e now txn q d)[i]? =
      (d[i]?).map (fun c =>
        if c.used = false ∧ ((d.take i).filter (fun r => !r.used)).length < q
        then markRec e now txn c else c)) :=
  ⟨getCode_success e svc he hsvc qf q hqf hq1 store d hd hstock txn now,
   fun i => markCodes_getElem? e now txn q d i⟩

/-- Witness for C2: the spec scenario — catalog `[C1, C2, C3]` all
unused, quantity 2 — applied to the success theorem. -/
theorem allocate_success_spec_witness :
    getCode (some "x@example.com") (some "Uber") (some "2") "T" 7
      (fun i => if i = "codes-uber"
        then some [freshRecord "C1", freshRecord "C2", freshRecord "C3"] else none) =
      (.success ((([freshRecord "C1", freshRecord "C2", freshRecord "C3"].filter
          (fun c => !c.used)).take 2).map (fun c => c.code)) "T" 2 (2 * UNIT_PRICE),
       [.get (resolveDocId "Uber"),
        .put (resolveDocId "Uber")
          (markCodes "x@example.com" 7 "T" 2
            [freshRecord "C1", freshRecord "C2", freshRecord "C3"])]) ∧
    (∀ i : Nat,
      (markCodes "x@example.com" 7 "T" 2
        [freshRecord "C1", freshRecord "C2", freshRecord "C3"])[i]? =
      (([freshRecord "C1", freshRecord "C2", freshRecord "C3"] : Doc)[i]?).map (fun c =>
        if c.used = false ∧
          ((([freshRecord "C1", freshRecord "C2", freshRecord "C3"] : Doc).take i).filter
            (fun r => !r.used)).length < 2
        then markRec "x@example.com" 7 "T" c else c)) :=
  allocate_success_spec "x@example.com" "Uber" (by decide) (by decide) 2 (by decide)
    (some "2") (by decide)
    (fun i => if i = "codes-uber"
      then some [freshRecord "C1", freshRecord "C2", freshRecord "C3"] else none)
    [freshRecord "C1", freshRecord "C2", freshRecord "C3"]
    (by decide) (by decide) "T" 7

/-- Counterexample for C4: in a two-request race over a two-code catalog,
the loser's conflicting `put` produces the generic 500 catch-all
(`serverError`) in a single attempt, even though an unused code remains —
there is no retry loop and no typed `Busy` failure. -/
theorem conflict_claim_counterexample :
    (run2 [false, true, true, false]
      ({ doc := [freshRecord "X", freshRecord "Y"], rev := 0 },
       ⟨⟨"a@x", 1, "TA", 1⟩, .start⟩, ⟨⟨"b@x", 1, "TB", 2⟩, .start⟩)).2.1.st =
      .done .serverError ∧
    0 < (((run2 [false, true, true, false]
      ({ doc := [freshRecord "X", freshRecord "Y"], rev := 0 },
       ⟨⟨"a@x", 1, "TA", 1⟩, .start⟩,
       ⟨⟨"b@x", 1, "TB", 2⟩, .start⟩)).1.doc).filter (fun c => !c.used)).length := by
  decide

/-- C4 amended: when the `put` conflicts (the snapshot revision is
stale), the handler performs no retry: it immediately responds with the
generic 500 catch-all (`serverError`) — not a typed `Busy` — leaving the
store untouched, and a responded request never acts again. -/
theorem conflict_no_retry (s : Store) (p : AllocProc) (d : Doc) (r : Nat)
    (nd : Doc) (res : HResult) (hst : p.st = .got d r)
    (hw : allocAttempt p.call d = .write nd res) (hr : r ≠ s.rev) :
    stepProc s p = (s, { p with st := .done .serverError }) ∧
    (∀ s2 : Store, ∀ x : HResult,
      stepProc s2 ⟨p.call, .done x⟩ = (s2, ⟨p.call, .done x⟩)) := by
  constructor
  · simp [stepProc, hst, hw, hr]
  · intro s2 x
    rfl

/-- Witness for C4's amended theorem: a concrete stale snapshot. -/
theorem conflict_no_retry_witness :
    stepProc { doc := [freshRecord "X"], rev := 5 }
      ⟨⟨"a@x", 1, "TA", 1⟩, .got [freshRecord "X"] 4⟩ =
      ({ doc := [freshRecord "X"], rev := 5 },
       ⟨⟨"a@x", 1, "TA", 1⟩, .done .serverError⟩) ∧
    (∀ s2 : Store, ∀ x : HResult,
      stepProc s2 ⟨⟨"a@x", 1, "TA", 1⟩, .done x⟩ = (s2, ⟨⟨"a@x", 1, "TA", 1⟩, .done x⟩)) :=
  conflict_no_retry { doc := [freshRecord "X"], rev := 5 }
    ⟨⟨"a@x", 1, "TA", 1⟩, .got [freshRecord "X"] 4⟩ [freshRecord "X"] 4
    (markCodes "a@x" 1 "TA" 1 [freshRecord "X"])
    (.success ["X"] "TA" 1 (1 * UNIT_PRICE)) rfl (by decide) (by decide)

/-- Counterexample for C9: two transactions with equal timestamps whose
first-occurrence order is descending by `txnId` — the code's stable sort
keeps them in first-occurrence order (`["b", "a"]`), so the output is not
tie-broken ascending by `txnId` as the claim states (ascending order on
the id strings is character-wise lexicographic, `txnId.data < txnId.data`). -/
theorem listTransactions_tiebreak_counterexample :
    ¬ (listTransactions
        [{ code := "c1", used := true, usedBy := some "u", usedAt := some 5,
           txnId := some "b" },
         { code := "c2", used := true, usedBy := some "u", usedAt := some 5,
           txnId := some "a" }]).Pairwise
      (fun a b => rowKey b < rowKey a ∨
        (rowKey a = rowKey b ∧ a.txnId.data < b.txnId.data)) := by
  decide

/-- C9 amended: `ListTransactions` groups the used records with a truthy
`txnId` by transaction id in first-occurrence order and stable-sorts the
rows descending by `occurredAt`: the output is sorted by non-increasing
date, is a permutation of the grouped rows, rows of equal date keep their
first-occurrence order (stability), and on the equal-timestamp example
the order is first-occurrence (`["b", "a"]`), not ascending `txnId`. -/
theorem listTransactions_stable_desc (d : Doc) :
    (listTransactions d).Pairwise (fun a b => rowKey b ≤ rowKey a) ∧
    (listTransactions d).Perm (groupRows d) ∧
    (∀ k : Nat, (listTransactions d).filter (fun r => rowKey r == k) =
      (groupRows d).filter (fun r => rowKey r == k)) ∧
    (listTransactions
        [{ code := "c1", used := true, usedBy := some "u", usedAt := some 5,
           txnId := some "b" },
         { code := "c2", used := true, usedBy := some "u", usedAt := some 5,
           txnId := some "a" }]).map (fun r => r.txnId) = ["b", "a"] :=
  ⟨sortDesc_pairwise _, sortDesc_perm _, fun k => sortDesc_filter _ k, by decide⟩

/-- Counterexample for C3: a request with an unknown service (`"Bogus"`)
and `quantity = 0` is not rejected with a validation error and zero store
invocations — it is routed to the doordash document, performs a `get` and
a `put`, and succeeds with one code. -/
theorem validation_claim_counterexample :
    getCode (some "x@example.com") (some "Bogus") (some "0") "T" 0
      (fun i => if i = "codes-doordash" then some [freshRecord "C1"] else none) =
      (.success ["C1"] "T" 1 40,
       [.get "codes-doordash",
        .put "codes-doordash"
          [{ code := "C1", used := true, usedBy := some "x@example.com",
             usedAt := some 0, txnId := some "T" }]]) := by
  decide

/-- C3 amended: the handler rejects without any store operation only a
missing or empty session email (401) and a missing or empty service
field (400); any other service value resolves to a document id
(`"Uber"` → uber, everything else → doordash) and the store is then
consulted, with no check of the quantity against any bound. -/
theorem validation_actual (q : Option String) (txn : String) (now : Nat)
    (store : String → Option Doc) :
    (∀ svc, getCode none svc q txn now store = (.unauthorized, [])) ∧
    (∀ svc, getCode (some "") svc q txn now store = (.unauthorized, [])) ∧
    (∀ e, e ≠ "" → getCode (some e) none q txn now store = (.serviceRequired, [])) ∧
    (∀ e, e ≠ "" → getCode (some e) (some "") q txn now store = (.serviceRequired, [])) ∧
    (∀ e svc, e ≠ "" → svc ≠ "" →
      ∃ rest, (getCode (some e) (some svc) q txn now store).2 =
        .get (resolveDocId svc) :: rest) := by
  refine ⟨fun svc => rfl, fun svc => by simp [getCode], ?_, ?_, ?_⟩
  · intro e he; simp [getCode, he]
  · intro e he; simp [getCode, he]
  · intro e svc he hsvc
    cases hsd : store (resolveDocId svc) with
    | none => exact ⟨[], by simp [getCode, he, hsvc, hsd]⟩
    | some d =>
      cases ha : allocAttempt ⟨e, jsQty q, txn, now⟩ d with
      | fail r => exact ⟨[], by simp [getCode, he, hsvc, hsd, ha]⟩
      | write nd r =>
        exact ⟨[.put (resolveDocId svc) nd], by simp [getCode, he, hsvc, hsd, ha]⟩

/-- C1: under every interleaving of the store `get`/`put` operations of
two concurrent allocation calls against the same catalog (whose codes
are pairwise distinct), if both calls return success then the two
returned code lists are disjoint — enforced only by the store's revision
check. -/
theorem concurrent_success_disjoint (sched : List Bool) (d0 : Doc) (r0 : Nat)
    (cA cB : AllocCall) (hnd : (d0.map (fun r => r.code)).Nodup)
    (ca cb : List String)
    (hca : succCodes (run2 sched ({ doc := d0, rev := r0 },
      ⟨cA, .start⟩, ⟨cB, .start⟩)).2.1.st = some ca)
    (hcb : succCodes (run2 sched ({ doc := d0, rev := r0 },
      ⟨cA, .start⟩, ⟨cB, .start⟩)).2.2.st = some cb) :
    ∀ x ∈ ca, x ∉ cb :=
  (run2_inv d0 hnd sched _ (inv_init d0 r0 cA cB)).2.2.2.1 ca cb hca hcb

/-- Witness for C1: a sequential interleaving over a two-code catalog in
which both calls succeed, the first with `["X"]`, the second with
`["Y"]`. -/
theorem concurrent_success_disjoint_witness :
    (([freshRecord "X", freshRecord "Y"] : Doc).map (fun r => r.code)).Nodup ∧
    succCodes (run2 [false, false, true, true]
      ({ doc := [freshRecord "X", freshRecord "Y"], rev := 0 },
       ⟨⟨"a@x", 1, "TA", 1⟩, .start⟩, ⟨⟨"b@x", 1, "TB", 2⟩, .start⟩)).2.1.st =
      some ["X"] ∧
    succCodes (run2 [false, false, true, true]
      ({ doc := [freshRecord "X", freshRecord "Y"], rev := 0 },
       ⟨⟨"a@x", 1, "TA", 1⟩, .start⟩, ⟨⟨"b@x", 1, "TB", 2⟩, .start⟩)).2.2.st =
      some ["Y"] ∧
    (∀ x ∈ (["X"] : List String), x ∉ (["Y"] : List String)) :=
  ⟨by decide, by decide, by decide,
   concurrent_success_disjoint [false, false, true, true]
     [freshRecord "X", freshRecord "Y"] 0 ⟨"a@x", 1, "TA", 1⟩ ⟨"b@x", 1, "TB", 2⟩
     (by decide) ["X"] ["Y"] (by decide) (by decide)⟩

/-- Witness for C3's amended theorem: concrete instantiations of its
conditional branches. -/
theorem validation_actual_witness :
    getCode none (some "Uber") (some "1") "T" 0 (fun _ => none) = (.unauthorized, []) ∧
    getCode (some "x@example.com") none (some "1") "T" 0 (fun _ => none) =
      (.serviceRequired, []) ∧
    ∃ rest, (getCode (some "x@example.com") (some "Uber") (some "1") "T" 0
      (fun _ => none)).2 = .get (resolveDocId "Uber") :: rest :=
  ⟨(validation_actual (some "1") "T" 0 (fun _ => none)).1 (some "Uber"),
   (validation_actual (some "1") "T" 0 (fun _ => none)).2.2.1 "x@example.com" (by decide),
   (validation_actual (some "1") "T" 0 (fun _ => none)).2.2.2.2 "x@example.com" "Uber"
     (by decide) (by decide)⟩

end GiftCodes
